import Mathlib

/-!
Verification of the MSSQL flows app (spacelift-flows-apps/flows-app-mssql).

This development gives a shallow embedding of the pieces of the code that
the specification talks about:

* the driver value model and BigInt serialization shared by the
  `executeQuery` and `streamQuery` blocks;
* `sanitizeIdentifier` / `sanitizeTableName` and the parameterized
  INSERT statement built by the `bulkInsert` block;
* the batching loop of the `streamQuery` block;
* the push-to-pull row stream adapter `streamRows` (an event/pull
  interleaving machine);
* the shared connection pool manager `getPool` (a two-call interleaving
  machine over the module-level `globalPool` / `currentConfigHash` /
  `poolInitializationPromise` variables).

JavaScript values bound to requests or found in driver rows are modelled
by the inductive `SqlValue`; machine identities (pools, promises) by `Nat`
ids.  Each block's `onEvent` handler is modelled as a pure function of its
inputs and of the driver's responses, returning the list of SQL requests
it issued and the list of events it emitted.
-/

namespace Mssql

/-- A JavaScript value as seen by the mssql driver binding layer: the only
distinction the code ever makes is `typeof value === "bigint"` versus
everything else, plus strings produced by `BigInt.prototype.toString`. -/
inductive SqlValue where
  | bigint (i : Int)
  | str (s : String)
  | num (n : Int)
  | boolean (b : Bool)
  | null
  deriving DecidableEq, Repr

/-- The `typeof value === "bigint"` test. -/
def SqlValue.isBigint : SqlValue → Bool
  | .bigint _ => true
  | _ => false

/-- A driver result row: ordered key/value pairs, as produced by
`Object.entries(row)`. -/
abbrev DbRow : Type := List (String × SqlValue)

/-- One cell of the per-row BigInt serialization loop shared by
`executeQuery.onEvent` and `streamQuery.onEvent`:
`typeof value === "bigint" ? value.toString() : value`. -/
def serializeValue : SqlValue → SqlValue
  | .bigint i => .str (toString i)
  | v => v

/-- The per-row serialization loop: rebuilds the row entry by entry,
converting BigInt fields to their decimal strings and copying every other
field unchanged under the same key. -/
def serializeRow (row : DbRow) : DbRow :=
  row.map (fun kv => (kv.1, serializeValue kv.2))

/-- Row serialization as the specification words it, for comparison with
the code-side `serializeRow`: every field whose driver value is a bigint
appears as its decimal string representation, every other field appears
unchanged under the same key. -/
def serializeRowSpec (row : DbRow) : DbRow :=
  row.map (fun kv =>
    match kv.2 with
    | .bigint i => (kv.1, .str (toString i))
    | v => (kv.1, v))

theorem serializeRow_eq_spec (row : DbRow) : serializeRow row = serializeRowSpec row := by
  unfold serializeRow serializeRowSpec
  apply List.map_congr_left
  intro kv _
  cases h : kv.2 <;> simp [serializeValue, h]

theorem serializeValue_not_bigint (v : SqlValue) : (serializeValue v).isBigint = false := by
  cases v <;> simp [serializeValue, SqlValue.isBigint]

/-! ### bulkInsert: identifier sanitizing and statement building -/

/-- The character class of the regex `/[\[\]]/g` in `sanitizeIdentifier`. -/
def isBracketChar (c : Char) : Bool :=
  c = '[' || c = ']'

/-- `sanitizeIdentifier` from `bulkInsert.ts`: removes any existing square
brackets from the name and wraps the remainder in square brackets. -/
def sanitizeIdentifier (name : String) : String :=
  let cleaned := String.mk (name.data.filter (fun c => !isBracketChar c))
  "[" ++ cleaned ++ "]"

/-- `sanitizeTableName` from `bulkInsert.ts`: splits the table name on
dots, sanitizes each part and rejoins with dots. -/
def sanitizeTableName (tableName : String) : String :=
  String.intercalate "." ((tableName.splitOn ".").map sanitizeIdentifier)

/-- The table-name treatment as the claim words it: each dot-separated
part of the table name with all square-bracket characters removed and then
wrapped in square brackets, parts rejoined by dots. -/
def sanitizeTableNameSpec (tableName : String) : String :=
  String.intercalate "."
    ((tableName.splitOn ".").map (fun part =>
      "[" ++ String.mk (part.data.filter (fun c => !(c = '[' || c = ']'))) ++ "]"))

theorem sanitizeTableName_eq_spec (t : String) :
    sanitizeTableName t = sanitizeTableNameSpec t := by
  unfold sanitizeTableName sanitizeTableNameSpec sanitizeIdentifier isBracketChar
  rfl

/-- Binding of a single cell value in `bulkInsert.onEvent`: a bigint is
bound as `value.toString()`, anything else is bound as is. -/
def bindCell : SqlValue → SqlValue
  | .bigint i => .str (toString i)
  | v => v

/-- State threaded through the double loop of `bulkInsert.onEvent`:
the accumulated `(@-less name, value)` bindings made on the request, the
accumulated per-row placeholder groups, and the mutable `paramIndex`
counter (starting at 1). -/
structure InsertAcc where
  params : List (String × SqlValue)
  groups : List String
  paramIndex : Nat
  deriving DecidableEq, Repr

/-- The inner loop over one row: pushes `@p<i>` placeholders and binds one
parameter per cell, incrementing `paramIndex` each time.  Returns the
placeholder list of this row together with the updated bindings/counter. -/
def buildRowParams (acc : List (String × SqlValue)) (idx : Nat) :
    List SqlValue → List String × List (String × SqlValue) × Nat
  | [] => ([], acc, idx)
  | v :: vs =>
    let acc' := acc ++ [("p" ++ toString idx, bindCell v)]
    let res := buildRowParams acc' (idx + 1) vs
    (("@p" ++ toString idx) :: res.1, res.2.1, res.2.2)

/-- The outer loop over all rows of `bulkInsert.onEvent`: builds the
`(...)` placeholder group for each row while threading the parameter
counter across rows. -/
def buildRows (acc : InsertAcc) : List (List SqlValue) → InsertAcc
  | [] => acc
  | row :: rest =>
    let res := buildRowParams acc.params acc.paramIndex row
    buildRows
      { params := res.2.1
        groups := acc.groups ++ ["(" ++ String.intercalate ", " res.1 ++ ")"]
        paramIndex := res.2.2 } rest

/-- The complete accumulator produced for a given `rows` input, starting
from the empty accumulator with `paramIndex = 1`. -/
def bulkInsertAcc (rows : List (List SqlValue)) : InsertAcc :=
  buildRows { params := [], groups := [], paramIndex := 1 } rows

/-- The column list of the INSERT statement: each column name wrapped in
square brackets, joined by a comma and a space. -/
def columnsList (columns : List String) : String :=
  String.intercalate ", " (columns.map (fun col => "[" ++ col ++ "]"))

/-- The INSERT statement assembled by `bulkInsert.onEvent`. -/
def insertQuery (table : String) (columns : List String)
    (rows : List (List SqlValue)) : String :=
  "INSERT INTO " ++ sanitizeTableName table ++ " (" ++ columnsList columns ++
    ") VALUES " ++ String.intercalate ", " (bulkInsertAcc rows).groups

/-- The emitted `rowCount` of `bulkInsert.onEvent` for a non-empty rows
input: `totalRowsAffected || rowsData.length`, where `totalRowsAffected`
is the sum of the driver's `rowsAffected` array. -/
def bulkRowCount (rowsAffected : List Nat) (rowsLen : Nat) : Nat :=
  let total := rowsAffected.sum
  if total = 0 then rowsLen else total

/-! ### bulkInsert: the statement shape as the claim words it -/

/-- Cell binding as the claim words it: a bigint cell value is bound as
its decimal string representation, anything else as is. -/
def bindCellSpec : SqlValue → SqlValue
  | .bigint i => .str (toString i)
  | v => v

/-- The parameter bindings as the claim words them: parameters named
`p1, p2, ...` numbered consecutively in row-major order across all rows,
one per cell. -/
def insertParamsSpec (cells : List SqlValue) : List (String × SqlValue) :=
  List.zipWith (fun k v => ("p" ++ toString (k + 1), bindCellSpec v))
    (List.range cells.length) cells

/-- The `VALUES` group of one row when its first cell is bound at
(1-based) parameter index `idx`. -/
def valueGroupSpec (idx : Nat) (row : List SqlValue) : String :=
  "(" ++ String.intercalate ", "
    ((List.range row.length).map (fun j => "@p" ++ toString (idx + j))) ++ ")"

/-- All `VALUES` groups, with parameter indices running consecutively in
row-major order starting at `idx`. -/
def valueGroupsSpec (idx : Nat) : List (List SqlValue) → List String
  | [] => []
  | row :: rest => valueGroupSpec idx row :: valueGroupsSpec (idx + row.length) rest

theorem bindCell_eq_spec (v : SqlValue) : bindCell v = bindCellSpec v := by
  cases v <;> rfl

theorem zipWith_ext_total (f g : Nat → α → β) (h : ∀ j v, f j v = g j v)
    (l₁ : List Nat) (l₂ : List α) : List.zipWith f l₁ l₂ = List.zipWith g l₁ l₂ := by
  have hf : f = g := funext fun j => funext fun v => h j v
  rw [hf]

theorem map_ext_total (f g : α → β) (h : ∀ v, f v = g v) (l : List α) :
    l.map f = l.map g := by
  have hf : f = g := funext h
  rw [hf]

/-- Characterization of the inner row loop: the placeholders are
`@p idx, @p (idx+1), ...`, one binding is appended per cell, and the
counter advances by the row length. -/
theorem buildRowParams_eq (row : List SqlValue) :
    ∀ (acc : List (String × SqlValue)) (idx : Nat),
    buildRowParams acc idx row =
      ((List.range row.length).map (fun j => "@p" ++ toString (idx + j)),
       acc ++ List.zipWith (fun j v => ("p" ++ toString (idx + j), bindCell v))
         (List.range row.length) row,
       idx + row.length) := by
  induction row with
  | nil => intro acc idx; simp [buildRowParams]
  | cons v vs ih =>
    intro acc idx
    simp only [buildRowParams, ih, List.length_cons, List.range_succ_eq_map,
      List.map_cons, List.map_map, List.zipWith_cons_cons, List.zipWith_map_left,
      Prod.mk.injEq]
    refine ⟨?_, ?_, by omega⟩
    · congr 1
      apply map_ext_total
      intro j
      have e : idx + 1 + j = idx + Nat.succ j := by omega
      simp only [Function.comp_apply, e]
    · rw [List.append_assoc]
      congr 1
      rw [List.singleton_append]
      congr 1
      apply zipWith_ext_total
      intro j w
      have e : idx + 1 + j = idx + (j + 1) := by omega
      rw [e]

/-- Characterization of the outer row loop: groups are numbered
consecutively in row-major order, and the bindings are those of the
flattened cell list. -/
theorem buildRows_eq (rows : List (List SqlValue)) :
    ∀ (acc : InsertAcc),
    buildRows acc rows =
      { params := acc.params ++
          List.zipWith (fun j v => ("p" ++ toString (acc.paramIndex + j), bindCell v))
            (List.range rows.flatten.length) rows.flatten,
        groups := acc.groups ++ valueGroupsSpec acc.paramIndex rows,
        paramIndex := acc.paramIndex + rows.flatten.length } := by
  induction rows with
  | nil => intro acc; simp [buildRows, valueGroupsSpec]
  | cons row rest ih =>
    intro acc
    simp only [buildRows, buildRowParams_eq, ih, List.flatten_cons, valueGroupsSpec]
    simp only [InsertAcc.mk.injEq]
    refine ⟨?_, ?_, ?_⟩
    · rw [List.append_assoc]
      congr 1
      conv_rhs => rw [List.length_append, List.range_add,
        List.zipWith_append _ _ _ _ _ (by simp), List.zipWith_map_left]
      congr 1
      apply zipWith_ext_total
      intro j w
      have e : acc.paramIndex + row.length + j = acc.paramIndex + (row.length + j) := by omega
      rw [e]
    · rw [List.append_assoc, List.singleton_append]
      congr 1
    · simp only [List.length_append]
      omega

/-- The full accumulator, in claim form. -/
theorem bulkInsertAcc_eq (rows : List (List SqlValue)) :
    bulkInsertAcc rows =
      { params := insertParamsSpec rows.flatten,
        groups := valueGroupsSpec 1 rows,
        paramIndex := 1 + rows.flatten.length } := by
  rw [bulkInsertAcc, buildRows_eq]
  congr 1
  rw [insertParamsSpec]
  simp only [List.nil_append]
  apply zipWith_ext_total
  intro j v
  rw [bindCell_eq_spec]
  have e : 1 + j = j + 1 := by omega
  rw [e]

/-! ### streamQuery: batching loop -/

/-- Effective batch size of `streamQuery.onEvent`:
`(configBatchSize as number) || 100`, so an absent or zero configured
size falls back to 100. -/
def effectiveBatchSize : Option Nat → Nat
  | none => 100
  | some 0 => 100
  | some (b + 1) => b + 1

theorem effectiveBatchSize_pos : ∀ cfgB : Option Nat, 1 ≤ effectiveBatchSize cfgB
  | none => by simp [effectiveBatchSize]
  | some 0 => by simp [effectiveBatchSize]
  | some (b + 1) => by simp [effectiveBatchSize]

/-- One batch event emitted by `streamQuery.onEvent`. -/
structure RowBatch where
  batchNumber : Nat
  rows : List DbRow
  rowCount : Nat
  hasMore : Bool
  deriving DecidableEq

/-- The default used when indexing into batch lists. -/
def emptyBatch : RowBatch := ⟨0, [], 0, false⟩

/-- The `for await` loop of `streamQuery.onEvent`: serializes each row,
pushes it into `currentBatch`, emits a `hasMore: true` batch whenever the
batch reaches `batchSize`, and after the loop emits any remaining rows as
a final `hasMore: false` batch. -/
def streamEmitLoop (b : Nat) : List DbRow → Nat → List DbRow → List RowBatch
  | [], n, cur => if 0 < cur.length then [⟨n, cur, cur.length, false⟩] else []
  | r :: rs, n, cur =>
    let cur' := cur ++ [serializeRow r]
    if b ≤ cur'.length then
      ⟨n, cur', cur'.length, true⟩ :: streamEmitLoop b rs (n + 1) []
    else
      streamEmitLoop b rs n cur'

/-- The batch events emitted by one `streamQuery` invocation, as a
function of the configured batch size and of the rows pulled from the
stream (in pull order). -/
def streamQueryBatches (cfgB : Option Nat) (rows : List DbRow) : List RowBatch :=
  streamEmitLoop (effectiveBatchSize cfgB) rows 0 []

/-- Specification-side chunking: the list split into consecutive chunks
of `b` elements, the last chunk possibly shorter. -/
def chunksOf (b : Nat) : List α → List (List α)
  | [] => []
  | x :: xs =>
    if _hb : b = 0 then []
    else (x :: xs).take b :: chunksOf b ((x :: xs).drop b)
termination_by xs => xs.length
decreasing_by
  simp only [List.length_drop, List.length_cons]
  omega

/-- Specification-side batch construction from a chunk list: consecutive
batch numbers from `n`, `rowCount` the chunk length, `hasMore` exactly
when the chunk is full. -/
def mkBatches (b : Nat) : Nat → List (List DbRow) → List RowBatch
  | _, [] => []
  | n, c :: cs => ⟨n, c, c.length, c.length == b⟩ :: mkBatches b (n + 1) cs

theorem chunksOf_nil (b : Nat) : chunksOf b ([] : List α) = [] := by
  rw [chunksOf]

theorem chunksOf_of_ne (b : Nat) (xs : List α) (hx : xs ≠ []) (hb : b ≠ 0) :
    chunksOf b xs = xs.take b :: chunksOf b (xs.drop b) := by
  cases xs with
  | nil => exact absurd rfl hx
  | cons x xs => rw [chunksOf]; simp [hb]

/-- The emission loop computes exactly the chunk batches of the
serialized remaining rows appended to the current partial batch. -/
theorem streamEmitLoop_eq_mkBatches (b : Nat) (hb : 1 ≤ b) (rows : List DbRow) :
    ∀ (n : Nat) (cur : List DbRow), cur.length < b →
    streamEmitLoop b rows n cur = mkBatches b n (chunksOf b (cur ++ rows.map serializeRow)) := by
  induction rows with
  | nil =>
    intro n cur hcur
    by_cases hc : cur = []
    · subst hc
      simp [streamEmitLoop, chunksOf_nil, mkBatches]
    · rw [streamEmitLoop]
      simp only [List.map_nil, List.append_nil]
      rw [chunksOf_of_ne b cur hc (by omega)]
      rw [List.take_of_length_le (by omega), List.drop_eq_nil_of_le (by omega), chunksOf_nil]
      have hlen : 0 < cur.length := List.length_pos.mpr hc
      simp only [hlen, if_true, mkBatches]
      have hne : (cur.length == b) = false := by
        simp only [beq_eq_false_iff_ne]
        omega
      rw [hne]
  | cons r rs ih =>
    intro n cur hcur
    rw [streamEmitLoop]
    simp only [List.map_cons]
    by_cases hfull : b ≤ (cur ++ [serializeRow r]).length
    · have hlen : (cur ++ [serializeRow r]).length = b := by
        simp only [List.length_append, List.length_cons, List.length_nil] at hfull ⊢
        omega
      simp only [hfull, if_true]
      rw [show cur ++ serializeRow r :: rs.map serializeRow =
            (cur ++ [serializeRow r]) ++ rs.map serializeRow by simp]
      rw [chunksOf_of_ne b _ (by simp) (by omega)]
      rw [List.take_left' hlen, List.drop_left' hlen]
      rw [mkBatches]
      rw [ih (n + 1) [] (by simpa using hb)]
      rw [hlen]
      simp
    · simp only [hfull, if_false]
      rw [ih n (cur ++ [serializeRow r]) (by omega)]
      congr 2
      simp

/-- Every chunk list flattens back to the original list. -/
theorem flatten_chunksOf (b : Nat) (hb : 1 ≤ b) (xs : List α) :
    (chunksOf b xs).flatten = xs := by
  cases hx : xs with
  | nil => simp [chunksOf_nil]
  | cons x rest =>
    rw [chunksOf_of_ne b (x :: rest) (by simp) (by omega)]
    rw [List.flatten_cons]
    rw [flatten_chunksOf b hb ((x :: rest).drop b)]
    exact List.take_append_drop b (x :: rest)
termination_by xs.length
decreasing_by
  simp only [List.length_drop, List.length_cons]
  omega

/-- The number of chunks is the ceiling of `length / b`. -/
theorem chunksOf_length (b : Nat) (hb : 1 ≤ b) (xs : List α) :
    (chunksOf b xs).length = (xs.length + b - 1) / b := by
  cases hx : xs with
  | nil =>
    rw [chunksOf_nil]
    simp only [List.length_nil, List.length, Nat.zero_add]
    rw [Nat.div_eq_of_lt (by omega)]
  | cons x rest =>
    rw [chunksOf_of_ne b (x :: rest) (by simp) (by omega)]
    rw [List.length_cons, chunksOf_length b hb ((x :: rest).drop b)]
    rw [List.length_drop]
    rcases Nat.lt_or_ge ((x :: rest).length) (b + 1) with hsmall | hbig
    · have h1 : (x :: rest).length - b = 0 := by omega
      rw [h1]
      have h2 : (0 + b - 1) / b = 0 := Nat.div_eq_of_lt (by omega)
      rw [h2]
      have hpos : 0 < (x :: rest).length := by simp
      have h3 : (x :: rest).length + b - 1 = ((x :: rest).length - 1) + b := by omega
      rw [h3, Nat.add_div_right _ (by omega), Nat.div_eq_of_lt (by omega)]
    · have h3 : (x :: rest).length - b + b - 1 = ((x :: rest).length - b - 1) + b := by omega
      have h4 : (x :: rest).length + b - 1 = ((x :: rest).length - 1) + b := by omega
      have h5 : (x :: rest).length - 1 = ((x :: rest).length - b - 1) + b := by omega
      rw [h3, h4, h5, Nat.add_div_right _ (by omega), Nat.add_div_right _ (by omega),
        Nat.add_div_right _ (by omega)]
termination_by xs.length
decreasing_by
  simp only [List.length_drop, List.length_cons]
  omega

/-- The `i`-th chunk is the `i`-th window of `b` consecutive elements. -/
theorem chunksOf_getD (b : Nat) (hb : 1 ≤ b) (xs : List α) (d : List α) :
    ∀ i, i < (chunksOf b xs).length →
    (chunksOf b xs).getD i d = (xs.drop (i * b)).take b := by
  cases hx : xs with
  | nil => intro i hi; rw [chunksOf_nil] at hi; simp at hi
  | cons x rest =>
    intro i hi
    rw [chunksOf_of_ne b (x :: rest) (by simp) (by omega)] at hi ⊢
    match i with
    | 0 => simp
    | i + 1 =>
      simp only [List.getD_cons_succ]
      rw [chunksOf_getD b hb ((x :: rest).drop b) d i (by simpa using hi)]
      rw [List.drop_drop]
      congr 2
      ring
termination_by xs.length
decreasing_by
  simp only [List.length_drop, List.length_cons]
  omega

theorem mkBatches_length (b : Nat) (cs : List (List DbRow)) :
    ∀ n, (mkBatches b n cs).length = cs.length := by
  induction cs with
  | nil => intro n; rfl
  | cons c cs ih => intro n; simp [mkBatches, ih]

/-- The `i`-th batch built from a chunk list. -/
theorem mkBatches_getD (b : Nat) (cs : List (List DbRow)) :
    ∀ n i, i < cs.length →
    (mkBatches b n cs).getD i emptyBatch =
      ⟨n + i, cs.getD i [], (cs.getD i []).length, (cs.getD i []).length == b⟩ := by
  induction cs with
  | nil => intro n i hi; simp at hi
  | cons c cs ih =>
    intro n i hi
    match i with
    | 0 => simp [mkBatches]
    | i + 1 =>
      simp only [mkBatches, List.getD_cons_succ]
      rw [ih (n + 1) i (by simpa using hi)]
      congr 1
      omega

/-! ### streamRows: the push-to-pull row stream adapter

`streamRows` registers `row` / `error` / `done` callbacks on the driver
request and serves an async-generator loop.  We model it as a small-step
machine: the scheduler either delivers the next driver callback event or
lets the consumer pull.  The machine state carries the `rowQueue`,
`done` and `error` closure variables, the consumer/generator position,
the sequence of values yielded so far, and the driver events not yet
delivered. -/

/-- A value yielded by the generator: either a row, or the `undefined`
produced when the `done` callback resolves a pending pull. -/
inductive YieldItem (R : Type) where
  | val (r : R)
  | undef
  deriving DecidableEq, Repr

/-- A driver callback event. -/
inductive DrvEvent (R E : Type) where
  | row (r : R)
  | fail (e : E)
  | fin
  deriving DecidableEq, Repr

/-- The generator/consumer position.
`readyTop`: suspended at a yield, next pull resumes at the top of the
`while` loop.  `readyCheck`: suspended at the `yield await` point, next
pull first runs the `if (done && rowQueue.length === 0) return` check.
`waiting`: the consumer awaits the promise whose `resolver`/`rejecter`
are installed.  `finished`: the generator returned.  `failed e`: the
generator threw `e` to the consumer. -/
inductive GenPC (E : Type) where
  | readyTop
  | readyCheck
  | waiting
  | finished
  | failed (e : E)
  deriving DecidableEq, Repr

/-- The closure state of one `streamRows` invocation, plus the yield
trace and the undelivered driver events. -/
structure SRState (R E : Type) where
  queue : List R
  doneFlag : Bool
  errVar : Option E
  pc : GenPC E
  yields : List (YieldItem R)
  pending : List (DrvEvent R E)
  deriving DecidableEq, Repr

/-- The body of the `while (true)` loop, entered from the top:
`if (error) throw error`, else serve from `rowQueue`, else return if
`done`, else install the resolver and await. -/
def runLoop (s : SRState R E) : SRState R E :=
  match s.errVar with
  | some e => { s with pc := .failed e }
  | none =>
    match s.queue with
    | q :: qs => { s with queue := qs, yields := s.yields ++ [.val q], pc := .readyTop }
    | [] =>
      if s.doneFlag then { s with pc := .finished } else { s with pc := .waiting }

/-- One consumer pull (`next()` on the generator).  From `readyCheck`
the generator first runs the post-yield `if (done && rowQueue.length
=== 0) return` check.  Pulling while awaiting, finished or failed does
nothing. -/
def doPull (s : SRState R E) : SRState R E :=
  match s.pc with
  | .readyTop => runLoop s
  | .readyCheck =>
    match s.doneFlag, s.queue with
    | true, [] => { s with pc := .finished }
    | _, _ => runLoop s
  | _ => s

/-- Delivery of the next driver callback event, exactly as the three
`request.on` handlers behave: a row resolves a pending pull or is
queued; an error is stored and rejects a pending pull; done sets the
flag and resolves a pending pull with `undefined`. -/
def doDeliver (s : SRState R E) : SRState R E :=
  match s.pending with
  | [] => s
  | ev :: rest =>
    match ev with
    | .row r =>
      match s.pc with
      | .waiting =>
        { s with pending := rest, yields := s.yields ++ [.val r], pc := .readyCheck }
      | _ => { s with pending := rest, queue := s.queue ++ [r] }
    | .fail e =>
      match s.pc with
      | .waiting => { s with pending := rest, errVar := some e, pc := .failed e }
      | _ => { s with pending := rest, errVar := some e }
    | .fin =>
      match s.pc with
      | .waiting =>
        { s with pending := rest, doneFlag := true, yields := s.yields ++ [.undef],
                 pc := .readyCheck }
      | _ => { s with pending := rest, doneFlag := true }

/-- A scheduler action: a consumer pull, or delivery of the next driver
callback. -/
inductive SchedAct where
  | pull
  | deliver
  deriving DecidableEq, Repr

def srStep (s : SRState R E) : SchedAct → SRState R E
  | .pull => doPull s
  | .deliver => doDeliver s

/-- Run a schedule of interleaved pulls and deliveries. -/
def srRun (s : SRState R E) (acts : List SchedAct) : SRState R E :=
  acts.foldl srStep s

/-- The machine at generator start: empty queue, no error, not done,
consumer about to pull, all driver events still undelivered. -/
def srInit (evs : List (DrvEvent R E)) : SRState R E :=
  { queue := [], doneFlag := false, errVar := none, pc := .readyTop,
    yields := [], pending := evs }

/-! ### C1: yields over a rows-then-done trace -/

/-- Invariant while the final `done` event is still pending: `k` rows
delivered so far, yields plus queued rows are exactly those `k` rows. -/
def phase1 (rows : List R) (s : SRState R E) : Prop :=
  ∃ k, k ≤ rows.length ∧
    s.pending = (rows.drop k).map DrvEvent.row ++ [DrvEvent.fin] ∧
    s.doneFlag = false ∧
    s.yields ++ s.queue.map YieldItem.val = (rows.take k).map YieldItem.val ∧
    (s.pc = .readyTop ∨ s.pc = .readyCheck ∨ (s.pc = .waiting ∧ s.queue = []))

/-- Invariant after `done` was delivered to a non-awaiting consumer. -/
def phase2 (rows : List R) (s : SRState R E) : Prop :=
  s.pending = [] ∧ s.doneFlag = true ∧
  s.yields ++ s.queue.map YieldItem.val = rows.map YieldItem.val ∧
  (s.pc = .readyTop ∨ s.pc = .readyCheck ∨ (s.pc = .finished ∧ s.queue = []))

/-- Invariant after `done` resolved a pending pull: the `undefined`
sentinel has been yielded. -/
def phase3 (rows : List R) (s : SRState R E) : Prop :=
  s.pending = [] ∧ s.doneFlag = true ∧ s.queue = [] ∧
  s.yields = rows.map YieldItem.val ++ [YieldItem.undef] ∧
  (s.pc = .readyCheck ∨ s.pc = .finished)

/-- The full invariant for a driver trace of rows followed by done. -/
def C1Inv (rows : List R) (s : SRState R E) : Prop :=
  s.errVar = none ∧ (phase1 rows s ∨ phase2 rows s ∨ phase3 rows s)

theorem C1Inv_step (rows : List R) (s : SRState R E) (a : SchedAct)
    (h : C1Inv rows s) : C1Inv rows (srStep s a) := by
  obtain ⟨herr, hph⟩ := h
  cases a
  case pull =>
    rcases hph with ⟨k, hk, hpend, hdone, hyq, hpc⟩ | ⟨hpend, hdone, hyq, hpc⟩ |
      ⟨hpend, hdone, hq, hy, hpc⟩
    · -- phase 1
      rcases hpc with hpc | hpc | ⟨hpc, hq⟩
      · -- readyTop: run the loop
        simp only [srStep, doPull, hpc, runLoop, herr]
        cases hq : s.queue with
        | nil =>
          simp only [hq, hdone, Bool.false_eq_true, if_false]
          refine ⟨rfl, Or.inl ⟨k, hk, hpend, rfl, ?_, Or.inr (Or.inr ⟨rfl, rfl⟩)⟩⟩
          have hy2 := hyq
          rw [hq] at hy2
          exact hy2
        | cons q qs =>
          simp only [hq]
          refine ⟨rfl, Or.inl ⟨k, hk, hpend, hdone, ?_, Or.inl rfl⟩⟩
          show (s.yields ++ [YieldItem.val q]) ++ qs.map YieldItem.val = _
          rw [List.append_assoc, List.singleton_append, ← List.map_cons, ← hq]
          exact hyq
      · -- readyCheck: the done check fails (doneFlag = false), run the loop
        simp only [srStep, doPull, hpc, hdone, runLoop, herr]
        cases hq : s.queue with
        | nil =>
          simp only [hq, Bool.false_eq_true, if_false]
          refine ⟨rfl, Or.inl ⟨k, hk, hpend, rfl, ?_, Or.inr (Or.inr ⟨rfl, rfl⟩)⟩⟩
          have hy2 := hyq
          rw [hq] at hy2
          exact hy2
        | cons q qs =>
          simp only [hq]
          refine ⟨rfl, Or.inl ⟨k, hk, hpend, rfl, ?_, Or.inl rfl⟩⟩
          show (s.yields ++ [YieldItem.val q]) ++ qs.map YieldItem.val = _
          rw [List.append_assoc, List.singleton_append, ← List.map_cons, ← hq]
          exact hyq
      · -- waiting: pull is a no-op
        simp only [srStep, doPull, hpc]
        exact ⟨herr, Or.inl ⟨k, hk, hpend, hdone, hyq, Or.inr (Or.inr ⟨hpc, hq⟩)⟩⟩
    · -- phase 2
      rcases hpc with hpc | hpc | ⟨hpc, hq⟩
      · -- readyTop
        simp only [srStep, doPull, hpc, runLoop, herr]
        cases hq : s.queue with
        | nil =>
          simp only [hq, hdone, if_true]
          refine ⟨rfl, Or.inr (Or.inl ⟨hpend, rfl, ?_, Or.inr (Or.inr ⟨rfl, rfl⟩)⟩)⟩
          have hy2 := hyq
          rw [hq] at hy2
          exact hy2
        | cons q qs =>
          simp only [hq]
          refine ⟨rfl, Or.inr (Or.inl ⟨hpend, hdone, ?_, Or.inl rfl⟩)⟩
          show (s.yields ++ [YieldItem.val q]) ++ qs.map YieldItem.val = _
          rw [List.append_assoc, List.singleton_append, ← List.map_cons, ← hq]
          exact hyq
      · -- readyCheck: done holds, so the check decides on the queue
        cases hq : s.queue with
        | nil =>
          simp only [srStep, doPull, hpc, hdone, hq]
          refine ⟨herr, Or.inr (Or.inl ⟨hpend, rfl, ?_, Or.inr (Or.inr ⟨rfl, rfl⟩)⟩)⟩
          have hy2 := hyq
          rw [hq] at hy2
          exact hy2
        | cons q qs =>
          simp only [srStep, doPull, hpc, hdone, hq, runLoop, herr]
          refine ⟨rfl, Or.inr (Or.inl ⟨hpend, rfl, ?_, Or.inl rfl⟩)⟩
          show (s.yields ++ [YieldItem.val q]) ++ qs.map YieldItem.val = _
          rw [List.append_assoc, List.singleton_append, ← List.map_cons, ← hq]
          exact hyq
      · -- finished: pull is a no-op
        simp only [srStep, doPull, hpc]
        exact ⟨herr, Or.inr (Or.inl ⟨hpend, hdone, hyq, Or.inr (Or.inr ⟨hpc, hq⟩)⟩)⟩
    · -- phase 3
      rcases hpc with hpc | hpc
      · -- readyCheck: done and empty queue, so the generator returns
        simp only [srStep, doPull, hpc, hdone, hq]
        exact ⟨herr, Or.inr (Or.inr ⟨hpend, rfl, rfl, hy, Or.inr rfl⟩)⟩
      · -- finished: no-op
        simp only [srStep, doPull, hpc]
        exact ⟨herr, Or.inr (Or.inr ⟨hpend, hdone, hq, hy, Or.inr hpc⟩)⟩
  case deliver =>
    rcases hph with ⟨k, hk, hpend, hdone, hyq, hpc⟩ | ⟨hpend, hdone, hyq, hpc⟩ |
      ⟨hpend, hdone, hq, hy, hpc⟩
    · -- phase 1: the head of pending is a row (k < length) or fin (k = length)
      rcases Nat.lt_or_ge k rows.length with hklt | hkge
      · -- head is row rows[k]
        have hdrop : rows.drop k = rows[k] :: rows.drop (k + 1) :=
          List.drop_eq_getElem_cons hklt
        rw [hdrop] at hpend
        simp only [List.map_cons, List.cons_append] at hpend
        have htake : (rows.take (k + 1)).map YieldItem.val =
            (rows.take k).map YieldItem.val ++ [YieldItem.val rows[k]] := by
          rw [List.take_succ, List.getElem?_eq_getElem hklt]
          simp
          rw [List.take_succ, List.getElem?_map, List.getElem?_eq_getElem hklt]
          simp
        rcases hpc with hpc | hpc | ⟨hpc, hq⟩
        · -- readyTop: row is queued
          simp only [srStep, doDeliver, hpend, hpc]
          refine ⟨herr, Or.inl ⟨k + 1, by omega, rfl, hdone, ?_, Or.inl rfl⟩⟩
          show s.yields ++ (s.queue ++ [rows[k]]).map YieldItem.val = _
          rw [htake, List.map_append, ← List.append_assoc, hyq]
          rfl
        · -- readyCheck: row is queued
          simp only [srStep, doDeliver, hpend, hpc]
          refine ⟨herr, Or.inl ⟨k + 1, by omega, rfl, hdone, ?_, Or.inr (Or.inl rfl)⟩⟩
          show s.yields ++ (s.queue ++ [rows[k]]).map YieldItem.val = _
          rw [htake, List.map_append, ← List.append_assoc, hyq]
          rfl
        · -- waiting: row resolves the pull and is yielded
          simp only [srStep, doDeliver, hpend, hpc]
          refine ⟨herr, Or.inl ⟨k + 1, by omega, rfl, hdone, ?_, Or.inr (Or.inl rfl)⟩⟩
          show (s.yields ++ [YieldItem.val rows[k]]) ++ s.queue.map YieldItem.val = _
          have hy2 := hyq
          rw [hq, List.map_nil, List.append_nil] at hy2
          rw [hq, List.map_nil, List.append_nil, htake, hy2]
      · -- head is fin
        have hkeq : k = rows.length := by omega
        subst hkeq
        rw [List.drop_length] at hpend
        simp only [List.map_nil, List.nil_append] at hpend
        have htake : (rows.take rows.length).map YieldItem.val = rows.map YieldItem.val := by
          rw [List.take_length]
        rw [htake] at hyq
        rcases hpc with hpc | hpc | ⟨hpc, hq⟩
        · -- readyTop: done flag set, phase 2
          simp only [srStep, doDeliver, hpend, hpc]
          exact ⟨herr, Or.inr (Or.inl ⟨rfl, rfl, hyq, Or.inl rfl⟩)⟩
        · -- readyCheck: done flag set, phase 2
          simp only [srStep, doDeliver, hpend, hpc]
          exact ⟨herr, Or.inr (Or.inl ⟨rfl, rfl, hyq, Or.inr (Or.inl rfl)⟩)⟩
        · -- waiting: undefined is yielded, phase 3
          simp only [srStep, doDeliver, hpend, hpc]
          refine ⟨herr, Or.inr (Or.inr ⟨rfl, rfl, hq, ?_, Or.inl rfl⟩)⟩
          show s.yields ++ [YieldItem.undef] = _
          have hy2 := hyq
          rw [hq, List.map_nil, List.append_nil] at hy2
          rw [hy2]
    · -- phase 2: pending empty, delivery is a no-op
      simp only [srStep, doDeliver, hpend]
      exact ⟨herr, Or.inr (Or.inl ⟨hpend, hdone, hyq, hpc⟩)⟩
    · -- phase 3: pending empty, delivery is a no-op
      simp only [srStep, doDeliver, hpend]
      exact ⟨herr, Or.inr (Or.inr ⟨hpend, hdone, hq, hy, hpc⟩)⟩


theorem C1Inv_run (rows : List R) (acts : List SchedAct) (s : SRState R E)
    (h : C1Inv rows s) : C1Inv rows (srRun s acts) := by
  induction acts generalizing s with
  | nil => exact h
  | cons a acts ih => exact ih _ (C1Inv_step rows s a h)

theorem C1Inv_init (rows : List R) :
    C1Inv rows (srInit (rows.map DrvEvent.row ++ [DrvEvent.fin]) : SRState R E) := by
  refine ⟨rfl, Or.inl ⟨0, Nat.zero_le _, ?_, rfl, ?_, Or.inl rfl⟩⟩
  · simp [srInit]
  · simp [srInit]

/-! ### C6: yields over a trace containing an error event -/

/-- Invariant while the error event is still pending: only rows that
precede the error have been delivered. -/
def phaseA (rows1 rows2 : List R) (e : E) (s : SRState R E) : Prop :=
  ∃ k, k ≤ rows1.length ∧
    s.pending = (rows1.drop k).map DrvEvent.row ++
      (DrvEvent.fail e :: rows2.map DrvEvent.row) ∧
    s.errVar = none ∧ s.doneFlag = false ∧
    s.yields ++ s.queue.map YieldItem.val = (rows1.take k).map YieldItem.val ∧
    (s.pc = .readyTop ∨ s.pc = .readyCheck ∨ (s.pc = .waiting ∧ s.queue = []))

/-- Invariant after the error was delivered: the stored error is `e`,
the consumer is failed or will fail on its next pull, and everything
yielded is a prefix of the pre-error rows. -/
def phaseB (rows1 rows2 : List R) (e : E) (s : SRState R E) : Prop :=
  ∃ j, j ≤ rows2.length ∧
    s.pending = (rows2.drop j).map DrvEvent.row ∧
    s.errVar = some e ∧ s.doneFlag = false ∧
    (∃ t, s.yields ++ t = rows1.map YieldItem.val) ∧
    (s.pc = .failed e ∨ s.pc = .readyTop ∨ s.pc = .readyCheck)

/-- The full invariant for a trace of rows with an error and no done. -/
def C6Inv (rows1 rows2 : List R) (e : E) (s : SRState R E) : Prop :=
  phaseA rows1 rows2 e s ∨ phaseB rows1 rows2 e s

theorem C6Inv_step (rows1 rows2 : List R) (e : E) (s : SRState R E) (a : SchedAct)
    (h : C6Inv rows1 rows2 e s) : C6Inv rows1 rows2 e (srStep s a) := by
  cases a
  case pull =>
    rcases h with ⟨k, hk, hpend, herr, hdone, hyq, hpc⟩ | ⟨j, hj, hpend, herr, hdone, hy, hpc⟩
    · -- phase A: like the error-free case
      rcases hpc with hpc | hpc | ⟨hpc, hq⟩
      · simp only [srStep, doPull, hpc, runLoop, herr]
        cases hq : s.queue with
        | nil =>
          simp only [hq, hdone, Bool.false_eq_true, if_false]
          refine Or.inl ⟨k, hk, hpend, rfl, rfl, ?_, Or.inr (Or.inr ⟨rfl, rfl⟩)⟩
          have hy2 := hyq
          rw [hq] at hy2
          exact hy2
        | cons q qs =>
          simp only [hq]
          refine Or.inl ⟨k, hk, hpend, rfl, hdone, ?_, Or.inl rfl⟩
          show (s.yields ++ [YieldItem.val q]) ++ qs.map YieldItem.val = _
          rw [List.append_assoc, List.singleton_append, ← List.map_cons, ← hq]
          exact hyq
      · simp only [srStep, doPull, hpc, hdone, runLoop, herr]
        cases hq : s.queue with
        | nil =>
          simp only [hq, Bool.false_eq_true, if_false]
          refine Or.inl ⟨k, hk, hpend, rfl, rfl, ?_, Or.inr (Or.inr ⟨rfl, rfl⟩)⟩
          have hy2 := hyq
          rw [hq] at hy2
          exact hy2
        | cons q qs =>
          simp only [hq]
          refine Or.inl ⟨k, hk, hpend, rfl, rfl, ?_, Or.inl rfl⟩
          show (s.yields ++ [YieldItem.val q]) ++ qs.map YieldItem.val = _
          rw [List.append_assoc, List.singleton_append, ← List.map_cons, ← hq]
          exact hyq
      · simp only [srStep, doPull, hpc]
        exact Or.inl ⟨k, hk, hpend, herr, hdone, hyq, Or.inr (Or.inr ⟨hpc, hq⟩)⟩
    · -- phase B: a pull throws the stored error (or is a no-op when failed)
      rcases hpc with hpc | hpc | hpc
      · simp only [srStep, doPull, hpc]
        exact Or.inr ⟨j, hj, hpend, herr, hdone, hy, Or.inl hpc⟩
      · simp only [srStep, doPull, hpc, runLoop, herr]
        exact Or.inr ⟨j, hj, hpend, rfl, hdone, hy, Or.inl rfl⟩
      · simp only [srStep, doPull, hpc, hdone, runLoop, herr]
        exact Or.inr ⟨j, hj, hpend, rfl, rfl, hy, Or.inl rfl⟩
  case deliver =>
    rcases h with ⟨k, hk, hpend, herr, hdone, hyq, hpc⟩ | ⟨j, hj, hpend, herr, hdone, hy, hpc⟩
    · rcases Nat.lt_or_ge k rows1.length with hklt | hkge
      · -- head is a pre-error row
        have hdrop : rows1.drop k = rows1[k] :: rows1.drop (k + 1) :=
          List.drop_eq_getElem_cons hklt
        rw [hdrop] at hpend
        simp only [List.map_cons, List.cons_append] at hpend
        have htake : (rows1.take (k + 1)).map YieldItem.val =
            (rows1.take k).map YieldItem.val ++ [YieldItem.val rows1[k]] := by
          rw [List.take_succ, List.getElem?_eq_getElem hklt]
          simp
          rw [List.take_succ, List.getElem?_map, List.getElem?_eq_getElem hklt]
          simp
        rcases hpc with hpc | hpc | ⟨hpc, hq⟩
        · simp only [srStep, doDeliver, hpend, hpc]
          refine Or.inl ⟨k + 1, by omega, rfl, herr, hdone, ?_, Or.inl rfl⟩
          show s.yields ++ (s.queue ++ [rows1[k]]).map YieldItem.val = _
          rw [htake, List.map_append, ← List.append_assoc, hyq]
          rfl
        · simp only [srStep, doDeliver, hpend, hpc]
          refine Or.inl ⟨k + 1, by omega, rfl, herr, hdone, ?_, Or.inr (Or.inl rfl)⟩
          show s.yields ++ (s.queue ++ [rows1[k]]).map YieldItem.val = _
          rw [htake, List.map_append, ← List.append_assoc, hyq]
          rfl
        · simp only [srStep, doDeliver, hpend, hpc]
          refine Or.inl ⟨k + 1, by omega, rfl, herr, hdone, ?_, Or.inr (Or.inl rfl)⟩
          show (s.yields ++ [YieldItem.val rows1[k]]) ++ s.queue.map YieldItem.val = _
          have hy2 := hyq
          rw [hq, List.map_nil, List.append_nil] at hy2
          rw [hq, List.map_nil, List.append_nil, htake, hy2]
      · -- head is the error event
        have hkeq : k = rows1.length := by omega
        subst hkeq
        rw [List.drop_length] at hpend
        simp only [List.map_nil, List.nil_append] at hpend
        have htake : (rows1.take rows1.length).map YieldItem.val =
            rows1.map YieldItem.val := by rw [List.take_length]
        rw [htake] at hyq
        rcases hpc with hpc | hpc | ⟨hpc, hq⟩
        · simp only [srStep, doDeliver, hpend, hpc]
          refine Or.inr ⟨0, Nat.zero_le _, by simp, rfl, hdone, ⟨s.queue.map YieldItem.val, hyq⟩,
            Or.inr (Or.inl rfl)⟩
        · simp only [srStep, doDeliver, hpend, hpc]
          refine Or.inr ⟨0, Nat.zero_le _, by simp, rfl, hdone, ⟨s.queue.map YieldItem.val, hyq⟩,
            Or.inr (Or.inr rfl)⟩
        · simp only [srStep, doDeliver, hpend, hpc]
          refine Or.inr ⟨0, Nat.zero_le _, by simp, rfl, hdone, ?_, Or.inl rfl⟩
          refine ⟨s.queue.map YieldItem.val, hyq⟩
    · -- phase B: a late row is queued (the consumer is never awaiting here)
      rcases Nat.lt_or_ge j rows2.length with hjlt | hjge
      · have hdrop : rows2.drop j = rows2[j] :: rows2.drop (j + 1) :=
          List.drop_eq_getElem_cons hjlt
        rw [hdrop] at hpend
        simp only [List.map_cons] at hpend
        obtain ⟨t, ht⟩ := hy
        rcases hpc with hpc | hpc | hpc
        · simp only [srStep, doDeliver, hpend, hpc]
          exact Or.inr ⟨j + 1, by omega, rfl, herr, hdone, ⟨t, ht⟩, Or.inl rfl⟩
        · simp only [srStep, doDeliver, hpend, hpc]
          exact Or.inr ⟨j + 1, by omega, rfl, herr, hdone, ⟨t, ht⟩, Or.inr (Or.inl rfl)⟩
        · simp only [srStep, doDeliver, hpend, hpc]
          exact Or.inr ⟨j + 1, by omega, rfl, herr, hdone, ⟨t, ht⟩, Or.inr (Or.inr rfl)⟩
      · have hjeq : j = rows2.length := by omega
        subst hjeq
        rw [List.drop_length] at hpend
        simp only [List.map_nil] at hpend
        simp only [srStep, doDeliver, hpend]
        exact Or.inr ⟨rows2.length, Nat.le_refl _, by simp [hpend], herr, hdone, hy, hpc⟩

theorem C6Inv_run (rows1 rows2 : List R) (e : E) (acts : List SchedAct) (s : SRState R E)
    (h : C6Inv rows1 rows2 e s) : C6Inv rows1 rows2 e (srRun s acts) := by
  induction acts generalizing s with
  | nil => exact h
  | cons a acts ih => exact ih _ (C6Inv_step rows1 rows2 e s a h)

theorem C6Inv_init (rows1 rows2 : List R) (e : E) :
    C6Inv rows1 rows2 e
      (srInit (rows1.map DrvEvent.row ++ (DrvEvent.fail e :: rows2.map DrvEvent.row))) := by
  refine Or.inl ⟨0, Nat.zero_le _, ?_, rfl, rfl, ?_, Or.inl rfl⟩
  · simp [srInit]
  · simp [srInit]



/-! ### getPool: shared connection pool lifecycle

`utils/pool.ts` keeps three module-level variables: `globalPool`,
`currentConfigHash` and `poolInitializationPromise`.  `getPool` reads and
writes them around two `await` points (closing the old pool, connecting
the new one).  We model a run as an interleaving of per-call atomic
segments between those awaits.  Pools and promises are `Nat` ids; a pool
id is connected once its `connect()` segment completed.  The trace
records close/create/connect effects in order. -/

/-- The configuration fields that `getConfigHash` serializes and hashes.
The sha256 of the JSON serialization is modelled by the serialized
content itself: two configurations get the same hash exactly when these
ten fields agree. -/
structure ConnCfg where
  server : String
  port : Nat
  database : String
  username : String
  password : Option String
  encrypt : Bool
  trustServerCertificate : Bool
  caCertificate : Option String
  connectionTimeout : Nat
  requestTimeout : Nat
  deriving DecidableEq, Repr

/-- `getConfigHash` from `utils/pool.ts`, with the hash modelled as the
hashed content. -/
def getConfigHash (appConfig : ConnCfg) : ConnCfg := appConfig

/-- An effect on the pool world, in execution order. -/
inductive PoolEvt where
  | closed (p : Nat)
  | created (p : Nat)
  | connectedEvt (p : Nat)
  deriving DecidableEq, Repr

/-- The module-level state of `utils/pool.ts`, plus bookkeeping: which
pool ids are connected, which promises are resolved with which pool, the
fresh-id counters, the number of `new ConnectionPool` initializations
started, and the effect trace. -/
structure MgrState (H : Type) where
  globalPool : Option Nat
  connectedIds : List Nat
  currentConfigHash : Option H
  poolInitializationPromise : Option Nat
  resolved : List (Nat × Nat)
  nextPoolId : Nat
  nextPromiseId : Nat
  initCount : Nat
  trace : List PoolEvt
  deriving DecidableEq, Repr

/-- The position of one in-flight `getPool(config)` call.
`idle`: not yet run.  `closingOld`: suspended at `await globalPool.close()`.
`connecting`: suspended at `await newPool.connect()`.  `joined`: awaiting
an initialization promise started by another call (line 72).
`finishedWith p`: returned pool `p`. -/
inductive CallSt (H : Type) where
  | idle (h : H)
  | closingOld (h : H) (pr : Nat) (oldPool : Nat)
  | connecting (h : H) (pr : Nat) (pool : Nat)
  | joined (pr : Nat)
  | finishedWith (pool : Nat)
  deriving DecidableEq, Repr

variable {H : Type} [DecidableEq H]

/-- Creation of a pool and suspension at `await newPool.connect()`:
allocates an id, counts the initialization and records the creation. -/
def startConnect (m : MgrState H) (h : H) (pr : Nat) : CallSt H × MgrState H :=
  (.connecting h pr m.nextPoolId,
   { m with nextPoolId := m.nextPoolId + 1,
            initCount := m.initCount + 1,
            trace := m.trace ++ [.created m.nextPoolId] })

/-- Line 66: `if (globalPool && currentConfigHash === configHash &&
globalPool.connected)` — the pool to return directly, if any. -/
def checkOne (m : MgrState H) (h : H) : Option Nat :=
  match m.globalPool, m.currentConfigHash with
  | some p, some h' => if h' = h ∧ p ∈ m.connectedIds then some p else none
  | _, _ => none

/-- Line 71: `if (poolInitializationPromise && currentConfigHash ===
configHash)` — the promise to join, if any. -/
def checkTwo (m : MgrState H) (h : H) : Option Nat :=
  match m.poolInitializationPromise, m.currentConfigHash with
  | some pr, some h' => if h' = h then some pr else none
  | _, _ => none

/-- One atomic segment of a `getPool` call, from the call's current
position, mirroring `getPool` line by line: the connected-pool fast path
(line 66), the join-existing-promise path (line 71, guarded by
`currentConfigHash === configHash`), starting the initialization (line
76: the promise variable is overwritten), the close of the old pool when
the hash changed (lines 79-87), the connect and the publication of pool
and hash (lines 99-103), and the unconditional clearing of the promise
variable in `finally` (line 108). -/
def callStep (m : MgrState H) : CallSt H → CallSt H × MgrState H
  | .idle h =>
    match checkOne m h with
    | some p => (.finishedWith p, m)
    | none =>
      match checkTwo m h with
      | some pr => (.joined pr, m)
      | none =>
        let m' := { m with poolInitializationPromise := some m.nextPromiseId,
                           nextPromiseId := m.nextPromiseId + 1 }
        match m.globalPool, m.currentConfigHash with
        | some p, some h' =>
          if h' = h then startConnect m' h m.nextPromiseId
          else (.closingOld h m.nextPromiseId p, m')
        | some p, none => (.closingOld h m.nextPromiseId p, m')
        | none, _ => startConnect m' h m.nextPromiseId
  | .closingOld h pr oldPool =>
    startConnect
      { m with globalPool := none, trace := m.trace ++ [.closed oldPool] } h pr
  | .connecting h pr q =>
    (.finishedWith q,
     { m with globalPool := some q,
              connectedIds := m.connectedIds ++ [q],
              currentConfigHash := some h,
              poolInitializationPromise := none,
              resolved := m.resolved ++ [(pr, q)],
              trace := m.trace ++ [.connectedEvt q] })
  | .joined pr =>
    match m.resolved.lookup pr with
    | some q => (.finishedWith q, m)
    | none => (.joined pr, m)
  | .finishedWith p => (.finishedWith p, m)

/-- A system of concurrent `getPool` calls over the shared module state. -/
structure SysState (H : Type) where
  mgr : MgrState H
  calls : List (CallSt H)
  deriving DecidableEq, Repr

/-- Advance call `i` by one atomic segment. -/
def sysStep (s : SysState H) (i : Nat) : SysState H :=
  match s.calls.get? i with
  | none => s
  | some c =>
    let r := callStep s.mgr c
    { mgr := r.2, calls := s.calls.set i r.1 }

/-- Run a scheduler choice sequence. -/
def sysRun (s : SysState H) (sched : List Nat) : SysState H :=
  sched.foldl sysStep s


/-! ### Block run models

Each block's `onEvent` handler, as a pure function of the block inputs
and of the driver's responses.  A run records how many `pool.request()`
objects were created, which SQL texts were sent with which parameter
bindings, and which events were emitted. -/

/-- One SQL text sent to the database with its parameter bindings. -/
structure IssuedReq where
  sqlText : String
  params : List (String × SqlValue)
  deriving DecidableEq

/-- The observable outcome of one block invocation. -/
structure BlockRun (Ev : Type) where
  requestsCreated : Nat
  issued : List IssuedReq
  emitted : List Ev
  deriving DecidableEq

/-- The event emitted by `executeQuery`. -/
structure QueryResultEvt where
  rows : List DbRow
  deriving DecidableEq

/-- The event emitted by `executeCommand`. -/
structure CommandResultEvt where
  rowsAffected : Nat
  deriving DecidableEq

/-- The event emitted by `bulkInsert`. -/
structure InsertResultEvt where
  rowCount : Nat
  table : String
  deriving DecidableEq

/-- `executeQuery.onEvent`: one request, one query, one event with the
BigInt-serialized recordset. -/
def executeQueryRun (query : String) (params : List (String × SqlValue))
    (recordset : List DbRow) : BlockRun QueryResultEvt :=
  { requestsCreated := 1,
    issued := [⟨query, params⟩],
    emitted := [⟨recordset.map serializeRow⟩] }

/-- `executeCommand.onEvent`: one request, one command, one event with
the summed `rowsAffected`. -/
def executeCommandRun (command : String) (params : List (String × SqlValue))
    (rowsAffected : List Nat) : BlockRun CommandResultEvt :=
  { requestsCreated := 1,
    issued := [⟨command, params⟩],
    emitted := [⟨rowsAffected.sum⟩] }

/-- `bulkInsert.onEvent`: on an empty rows input it emits
`{ rowCount: 0, table }` and returns before `pool.request()` is ever
called; otherwise one request carries the parameterized INSERT. -/
def bulkInsertRun (table : String) (columns : List String)
    (rows : List (List SqlValue)) (rowsAffected : List Nat) : BlockRun InsertResultEvt :=
  if rows.isEmpty then
    { requestsCreated := 0, issued := [], emitted := [⟨0, table⟩] }
  else
    { requestsCreated := 1,
      issued := [⟨insertQuery table columns rows, (bulkInsertAcc rows).params⟩],
      emitted := [⟨bulkRowCount rowsAffected rows.length, table⟩] }

/-- `streamQuery.onEvent`: one request whose single query is streamed;
the batch events are those of the batching loop over the pulled rows. -/
def streamQueryRun (query : String) (params : List (String × SqlValue))
    (cfgB : Option Nat) (rows : List DbRow) : BlockRun RowBatch :=
  { requestsCreated := 1,
    issued := [⟨query, params⟩],
    emitted := streamQueryBatches cfgB rows }

/-- The four introspection queries of `getTableInfo.onEvent`, with
whitespace collapsed. -/
def tableInfoTableQuery : String :=
  "SELECT s.name AS table_schema, t.name AS table_name, " ++
  "CASE WHEN t.type = 'U' THEN 'BASE TABLE' WHEN t.type = 'V' THEN 'VIEW' END AS table_type, " ++
  "CAST(ep.value AS NVARCHAR(MAX)) AS table_comment " ++
  "FROM sys.tables t INNER JOIN sys.schemas s ON t.schema_id = s.schema_id " ++
  "LEFT JOIN sys.extended_properties ep ON ep.major_id = t.object_id " ++
  "AND ep.minor_id = 0 AND ep.name = 'MS_Description' " ++
  "WHERE s.name = @p1 AND t.name = @p2"

def tableInfoColumnsQuery : String :=
  "SELECT c.name AS column_name, TYPE_NAME(c.user_type_id) AS data_type, " ++
  "CASE WHEN c.is_nullable = 1 THEN 'YES' ELSE 'NO' END AS is_nullable, " ++
  "dc.definition AS column_default, c.max_length AS character_maximum_length, " ++
  "c.precision AS numeric_precision, c.scale AS numeric_scale, " ++
  "CAST(ep.value AS NVARCHAR(MAX)) AS column_comment " ++
  "FROM sys.columns c INNER JOIN sys.tables t ON c.object_id = t.object_id " ++
  "INNER JOIN sys.schemas s ON t.schema_id = s.schema_id " ++
  "LEFT JOIN sys.default_constraints dc ON c.default_object_id = dc.object_id " ++
  "LEFT JOIN sys.extended_properties ep ON ep.major_id = c.object_id " ++
  "AND ep.minor_id = c.column_id AND ep.name = 'MS_Description' " ++
  "WHERE s.name = @p1 AND t.name = @p2 ORDER BY c.column_id"

def tableInfoConstraintsQuery : String :=
  "SELECT kc.name AS constraint_name, kc.type_desc AS constraint_type, " ++
  "STRING_AGG(c.name, ', ') WITHIN GROUP (ORDER BY ic.key_ordinal) AS columns, " ++
  "NULL AS foreign_table_schema, NULL AS foreign_table_name, NULL AS foreign_columns " ++
  "FROM sys.key_constraints kc " ++
  "INNER JOIN sys.tables t ON kc.parent_object_id = t.object_id " ++
  "INNER JOIN sys.schemas s ON t.schema_id = s.schema_id " ++
  "INNER JOIN sys.index_columns ic ON kc.parent_object_id = ic.object_id " ++
  "AND kc.unique_index_id = ic.index_id " ++
  "INNER JOIN sys.columns c ON ic.object_id = c.object_id AND ic.column_id = c.column_id " ++
  "WHERE s.name = @p1 AND t.name = @p2 GROUP BY kc.name, kc.type_desc " ++
  "UNION ALL " ++
  "SELECT fk.name AS constraint_name, 'FOREIGN_KEY' AS constraint_type, " ++
  "STRING_AGG(pc.name, ', ') WITHIN GROUP (ORDER BY fkc.constraint_column_id) AS columns, " ++
  "rs.name AS foreign_table_schema, rt.name AS foreign_table_name, " ++
  "STRING_AGG(rc.name, ', ') WITHIN GROUP (ORDER BY fkc.constraint_column_id) AS foreign_columns " ++
  "FROM sys.foreign_keys fk " ++
  "INNER JOIN sys.tables pt ON fk.parent_object_id = pt.object_id " ++
  "INNER JOIN sys.schemas ps ON pt.schema_id = ps.schema_id " ++
  "INNER JOIN sys.tables rt ON fk.referenced_object_id = rt.object_id " ++
  "INNER JOIN sys.schemas rs ON rt.schema_id = rs.schema_id " ++
  "INNER JOIN sys.foreign_key_columns fkc ON fk.object_id = fkc.constraint_object_id " ++
  "INNER JOIN sys.columns pc ON fkc.parent_object_id = pc.object_id " ++
  "AND fkc.parent_column_id = pc.column_id " ++
  "INNER JOIN sys.columns rc ON fkc.referenced_object_id = rc.object_id " ++
  "AND fkc.referenced_column_id = rc.column_id " ++
  "WHERE ps.name = @p1 AND pt.name = @p2 GROUP BY fk.name, rs.name, rt.name"

def tableInfoIndexesQuery : String :=
  "SELECT i.name AS index_name, i.is_unique, i.is_primary_key AS is_primary, " ++
  "STRING_AGG(c.name, ', ') WITHIN GROUP (ORDER BY ic.key_ordinal) AS columns " ++
  "FROM sys.indexes i INNER JOIN sys.tables t ON i.object_id = t.object_id " ++
  "INNER JOIN sys.schemas s ON t.schema_id = s.schema_id " ++
  "INNER JOIN sys.index_columns ic ON i.object_id = ic.object_id " ++
  "AND i.index_id = ic.index_id " ++
  "INNER JOIN sys.columns c ON ic.object_id = c.object_id AND ic.column_id = c.column_id " ++
  "WHERE s.name = @p1 AND t.name = @p2 AND i.name IS NOT NULL " ++
  "GROUP BY i.name, i.is_unique, i.is_primary_key"

/-- `schemaName || "dbo"`: an absent or empty schema falls back to dbo. -/
def actualSchema : Option String → String
  | none => "dbo"
  | some s => if s = "" then "dbo" else s

/-- The event emitted by `getTableInfo` (fields which are reshaped driver
rows are kept as rows). -/
structure TableInfoEvt where
  tableRow : DbRow
  columnRows : List DbRow
  constraintRows : List DbRow
  indexRows : List DbRow
  deriving DecidableEq

/-- `getTableInfo.onEvent`: four requests, four queries, each bound with
`p1 = actualSchema` and `p2 = table`; an empty first recordset throws
after the first query. -/
def getTableInfoRun (schemaName : Option String) (table : String)
    (tableRes columnsRes constraintsRes indexesRes : List DbRow) :
    Except String (BlockRun TableInfoEvt) :=
  let ps : List (String × SqlValue) :=
    [("p1", .str (actualSchema schemaName)), ("p2", .str table)]
  match tableRes with
  | [] => .error ("Table " ++ actualSchema schemaName ++ "." ++ table ++ " not found")
  | t0 :: _ =>
    .ok { requestsCreated := 4,
          issued := [⟨tableInfoTableQuery, ps⟩, ⟨tableInfoColumnsQuery, ps⟩,
                     ⟨tableInfoConstraintsQuery, ps⟩, ⟨tableInfoIndexesQuery, ps⟩],
          emitted := [⟨t0, columnsRes, constraintsRes, indexesRes⟩] }


/-! ### Supporting lemmas for the claim theorems -/

theorem mkBatches_map_rows (b : Nat) (cs : List (List DbRow)) :
    ∀ n, (mkBatches b n cs).map RowBatch.rows = cs := by
  induction cs with
  | nil => intro n; rfl
  | cons c cs ih => intro n; simp [mkBatches, ih]

/-- The batching loop computes the chunk batches of the serialized rows. -/
theorem streamQueryBatches_eq (cfgB : Option Nat) (rows : List DbRow) :
    streamQueryBatches cfgB rows =
      mkBatches (effectiveBatchSize cfgB) 0
        (chunksOf (effectiveBatchSize cfgB) (rows.map serializeRow)) := by
  unfold streamQueryBatches
  rw [streamEmitLoop_eq_mkBatches _ (effectiveBatchSize_pos cfgB) rows 0 []
    (by simpa using effectiveBatchSize_pos cfgB)]
  rfl

theorem lt_ceil_div_imp_mul_lt {b i n : Nat} (hb : 1 ≤ b)
    (h : i < (n + b - 1) / b) : i * b < n := by
  have h2 : (i + 1) * b ≤ n + b - 1 := (Nat.le_div_iff_mul_le (by omega)).mp h
  have h3 : i * b + b ≤ n + b - 1 := by
    have he : (i + 1) * b = i * b + b := by ring
    rw [he] at h2
    exact h2
  have key : ∀ x, x + b ≤ n + b - 1 → x < n := by intro x hx; omega
  exact key (i * b) h3

theorem serializeRow_map_no_bigint (rowsIn : List DbRow) :
    ∀ row ∈ rowsIn.map serializeRow, ∀ kv ∈ row, kv.2.isBigint = false := by
  intro row hrow kv hkv
  obtain ⟨orig, _, rfl⟩ := List.mem_map.mp hrow
  obtain ⟨kv0, _, rfl⟩ := List.mem_map.mp hkv
  exact serializeValue_not_bigint kv0.2


/-- A fresh module state: no pool, no stored hash, no in-flight promise. -/
def mgrFresh : MgrState Nat :=
  { globalPool := none, connectedIds := [], currentConfigHash := none,
    poolInitializationPromise := none, resolved := [], nextPoolId := 0,
    nextPromiseId := 0, initCount := 0, trace := [] }

/-! ### The claims -/

/-- C8: a `bulkInsert` invocation with an empty rows array emits exactly
one `{ rowCount: 0, table }` event, creates no request and issues no SQL
statement, leaving database state untouched. -/
theorem bulkInsert_empty_rows_frame (table : String) (columns : List String)
    (rowsAffected : List Nat) :
    bulkInsertRun table columns [] rowsAffected =
      { requestsCreated := 0, issued := [], emitted := [⟨0, table⟩] } := rfl

/-- C7 counterexample: a successful `getTableInfo` invocation issues four
queries, not one. -/
theorem getTableInfo_four_queries_counterexample :
    (getTableInfoRun (some "dbo") "users" [[("table_name", SqlValue.str "users")]]
        [] [] []).map (fun r => r.issued.length) = .ok 4 ∧ (4 : Nat) ≠ 1 := by
  exact ⟨rfl, by decide⟩

/-- C7 (amended): `executeQuery`, `executeCommand` and `streamQuery` each
issue exactly one query per invocation; `bulkInsert` issues one when the
rows input is non-empty and none when it is empty; a successful
`getTableInfo` issues exactly four. -/
theorem block_operation_counts_amended (q c table : String)
    (ps : List (String × SqlValue)) (recordset srows : List DbRow) (ra : List Nat)
    (cfgB : Option Nat) (columns : List String) (rows : List (List SqlValue))
    (schemaName : Option String) (t0 : DbRow) (tRest cRes kRes iRes : List DbRow) :
    (executeQueryRun q ps recordset).issued.length = 1 ∧
    (executeCommandRun c ps ra).issued.length = 1 ∧
    (streamQueryRun q ps cfgB srows).issued.length = 1 ∧
    (bulkInsertRun table columns rows ra).issued.length =
      (if rows.isEmpty then 0 else 1) ∧
    (getTableInfoRun schemaName table (t0 :: tRest) cRes kRes iRes).map
      (fun r => r.issued.length) = .ok 4 := by
  refine ⟨rfl, rfl, rfl, ?_, rfl⟩
  cases rows with
  | nil => rfl
  | cons r rs => rfl


/-- C9: for non-empty rows the issued statement is exactly
`INSERT INTO <t> (<cols>) VALUES <groups>` with the table sanitized as
the claim words it, columns bracketed and comma-joined, parameters
`p1, p2, ...` numbered consecutively in row-major order (one per cell,
bigints bound as decimal strings), and the emitted `rowCount` is the sum
of `rowsAffected` unless that sum is 0, in which case it is the number
of input rows. -/
theorem bulkInsert_statement_shape (table : String) (columns : List String)
    (rows : List (List SqlValue)) (rowsAffected : List Nat) (hr : rows ≠ []) :
    (bulkInsertRun table columns rows rowsAffected).issued =
      [⟨"INSERT INTO " ++ sanitizeTableNameSpec table ++ " (" ++
          String.intercalate ", " (columns.map (fun col => "[" ++ col ++ "]")) ++
          ") VALUES " ++ String.intercalate ", " (valueGroupsSpec 1 rows),
        insertParamsSpec rows.flatten⟩] ∧
    (bulkInsertRun table columns rows rowsAffected).emitted =
      [⟨if rowsAffected.sum = 0 then rows.length else rowsAffected.sum, table⟩] := by
  have hne : rows.isEmpty = false := by
    cases rows with
    | nil => exact absurd rfl hr
    | cons a l => rfl
  unfold bulkInsertRun
  rw [hne]
  simp only [Bool.false_eq_true, if_false]
  constructor
  · simp only [insertQuery, columnsList, sanitizeTableName_eq_spec, bulkInsertAcc_eq]
  · rfl

/-- C9 witness: the statement and bindings at a concrete input. -/
theorem bulkInsert_statement_shape_witness :
    (bulkInsertRun "dbo.users" ["id", "tag"]
        [[SqlValue.bigint 5, SqlValue.str "a"], [SqlValue.num 2, SqlValue.null]]
        [0]).issued =
      [⟨"INSERT INTO " ++ sanitizeTableNameSpec "dbo.users" ++ " (" ++
          String.intercalate ", " (["id", "tag"].map (fun col => "[" ++ col ++ "]")) ++
          ") VALUES " ++ String.intercalate ", "
            (valueGroupsSpec 1
              [[SqlValue.bigint 5, SqlValue.str "a"], [SqlValue.num 2, SqlValue.null]]),
        insertParamsSpec
          [[SqlValue.bigint 5, SqlValue.str "a"], [SqlValue.num 2, SqlValue.null]].flatten⟩] :=
  (bulkInsert_statement_shape "dbo.users" ["id", "tag"]
    [[SqlValue.bigint 5, SqlValue.str "a"], [SqlValue.num 2, SqlValue.null]]
    [0] (by decide)).1


/-- C10: no event emitted by `executeQuery` or `streamQuery` contains a
bigint: every bigint driver field is emitted as its decimal string and
every other field unchanged under the same key (`serializeRowSpec`), and
the stream batches flatten back to the serialized recordset. -/
theorem emitted_rows_no_bigint (q : String) (ps : List (String × SqlValue))
    (recordset : List DbRow) (cfgB : Option Nat) :
    (∀ evt ∈ (executeQueryRun q ps recordset).emitted, ∀ row ∈ evt.rows,
      ∀ kv ∈ row, kv.2.isBigint = false) ∧
    (executeQueryRun q ps recordset).emitted = [⟨recordset.map serializeRowSpec⟩] ∧
    (∀ batch ∈ (streamQueryRun q ps cfgB recordset).emitted, ∀ row ∈ batch.rows,
      ∀ kv ∈ row, kv.2.isBigint = false) ∧
    ((streamQueryRun q ps cfgB recordset).emitted.map RowBatch.rows).flatten =
      recordset.map serializeRowSpec := by
  have hspec : recordset.map serializeRow = recordset.map serializeRowSpec := by
    apply map_ext_total
    exact serializeRow_eq_spec
  refine ⟨?_, ?_, ?_, ?_⟩
  · intro evt hevt row hrow kv hkv
    simp only [executeQueryRun, List.mem_singleton] at hevt
    subst hevt
    exact serializeRow_map_no_bigint recordset row hrow kv hkv
  · simp only [executeQueryRun, hspec]
  · intro batch hbatch row hrow kv hkv
    simp only [streamQueryRun, streamQueryBatches_eq] at hbatch
    have hrows : batch.rows ∈
        chunksOf (effectiveBatchSize cfgB) (recordset.map serializeRow) := by
      have := List.mem_map_of_mem RowBatch.rows hbatch
      rwa [mkBatches_map_rows] at this
    have hrow2 : row ∈ recordset.map serializeRow := by
      have hmem : row ∈
          (chunksOf (effectiveBatchSize cfgB) (recordset.map serializeRow)).flatten :=
        List.mem_flatten.mpr ⟨batch.rows, hrows, hrow⟩
      rwa [flatten_chunksOf _ (effectiveBatchSize_pos cfgB)] at hmem
    exact serializeRow_map_no_bigint recordset row hrow2 kv hkv
  · simp only [streamQueryRun, streamQueryBatches_eq, mkBatches_map_rows,
      flatten_chunksOf _ (effectiveBatchSize_pos cfgB), hspec]

/-- C10 witness: a bigint field is emitted as its decimal string. -/
theorem emitted_rows_no_bigint_witness :
    (executeQueryRun "q" [] [[("x", SqlValue.bigint 3)]]).emitted =
      [⟨[[("x", SqlValue.bigint 3)]].map serializeRowSpec⟩] :=
  (emitted_rows_no_bigint "q" [] [[("x", SqlValue.bigint 3)]] none).2.1


/-- C5 counterexample: with batch size 1 and one row, the single (and
final) emitted batch carries `hasMore = true`, not `false`. -/
theorem streamQuery_hasMore_counterexample :
    (streamQueryBatches (some 1) [[("a", SqlValue.num 1)]]).length = 1 ∧
    ((streamQueryBatches (some 1) [[("a", SqlValue.num 1)]]).getD 0
      emptyBatch).hasMore = true := ⟨rfl, rfl⟩

/-- C5 (amended): with effective batch size `b` (default 100 when unset
or zero) and `n` streamed rows, `streamQuery` emits `⌈n/b⌉` batches in
order with consecutive `batchNumber` from 0, batch `i` carrying the
`i`-th window of `b` serialized rows (so all batches have `b` rows except
possibly the last), `rowCount` the batch's length, and `hasMore` true
exactly when the batch is full, i.e. when `(i+1)·b ≤ n` — in particular
`hasMore` is `true`, not `false`, on the final batch when `b` divides
`n`. -/
theorem streamQuery_batches_amended (cfgB : Option Nat) (rows : List DbRow) :
    (streamQueryBatches cfgB rows).length =
      (rows.length + effectiveBatchSize cfgB - 1) / effectiveBatchSize cfgB ∧
    ∀ i, i < (streamQueryBatches cfgB rows).length →
      ((streamQueryBatches cfgB rows).getD i emptyBatch).batchNumber = i ∧
      ((streamQueryBatches cfgB rows).getD i emptyBatch).rows =
        ((rows.map serializeRow).drop (i * effectiveBatchSize cfgB)).take
          (effectiveBatchSize cfgB) ∧
      ((streamQueryBatches cfgB rows).getD i emptyBatch).rowCount =
        ((streamQueryBatches cfgB rows).getD i emptyBatch).rows.length ∧
      (((streamQueryBatches cfgB rows).getD i emptyBatch).hasMore = true ↔
        (i + 1) * effectiveBatchSize cfgB ≤ rows.length) := by
  have hb := effectiveBatchSize_pos cfgB
  have hlen : (streamQueryBatches cfgB rows).length =
      (rows.length + effectiveBatchSize cfgB - 1) / effectiveBatchSize cfgB := by
    rw [streamQueryBatches_eq, mkBatches_length, chunksOf_length _ hb,
      List.length_map]
  refine ⟨hlen, ?_⟩
  intro i hi
  have hic : i < (chunksOf (effectiveBatchSize cfgB) (rows.map serializeRow)).length := by
    rw [streamQueryBatches_eq, mkBatches_length] at hi
    exact hi
  have hgd : (streamQueryBatches cfgB rows).getD i emptyBatch =
      ⟨0 + i,
       (chunksOf (effectiveBatchSize cfgB) (rows.map serializeRow)).getD i [],
       ((chunksOf (effectiveBatchSize cfgB) (rows.map serializeRow)).getD i []).length,
       ((chunksOf (effectiveBatchSize cfgB) (rows.map serializeRow)).getD i []).length ==
         effectiveBatchSize cfgB⟩ := by
    rw [streamQueryBatches_eq, mkBatches_getD _ _ 0 i hic]
  have hchunk : (chunksOf (effectiveBatchSize cfgB) (rows.map serializeRow)).getD i [] =
      ((rows.map serializeRow).drop (i * effectiveBatchSize cfgB)).take
        (effectiveBatchSize cfgB) :=
    chunksOf_getD _ hb _ _ i hic
  have himul : i * effectiveBatchSize cfgB < rows.length := by
    have := hic
    rw [chunksOf_length _ hb, List.length_map] at this
    exact lt_ceil_div_imp_mul_lt hb this
  refine ⟨by rw [hgd]; simp, by rw [hgd, hchunk], by rw [hgd, hchunk], ?_⟩
  rw [hgd, hchunk]
  show (_ == _) = true ↔ _
  rw [beq_iff_eq, List.length_take, List.length_drop, List.length_map]
  have key : ∀ x, x < rows.length →
      (min (effectiveBatchSize cfgB) (rows.length - x) = effectiveBatchSize cfgB ↔
        x + effectiveBatchSize cfgB ≤ rows.length) := by
    intro x hx
    omega
  have hmul : (i + 1) * effectiveBatchSize cfgB =
      i * effectiveBatchSize cfgB + effectiveBatchSize cfgB := by ring
  rw [hmul]
  exact key (i * effectiveBatchSize cfgB) himul

/-- C5 witness: three rows at batch size 2 give two batches. -/
theorem streamQuery_batches_witness :
    (streamQueryBatches (some 2)
        [[("a", SqlValue.num 1)], [("a", SqlValue.num 2)], [("a", SqlValue.num 3)]]).length =
      (3 + effectiveBatchSize (some 2) - 1) / effectiveBatchSize (some 2) :=
  (streamQuery_batches_amended (some 2)
    [[("a", SqlValue.num 1)], [("a", SqlValue.num 2)], [("a", SqlValue.num 3)]]).1


/-- C1 counterexample: with no rows, a pull awaiting when `done` arrives
makes the generator yield an `undefined` sentinel before terminating, so
the yield sequence is not exactly the (empty) row sequence. -/
theorem streamRows_undef_counterexample :
    (srRun (srInit (([] : List Nat).map DrvEvent.row ++ [DrvEvent.fin]) : SRState Nat Nat)
        [SchedAct.pull, SchedAct.deliver, SchedAct.pull]).pc = GenPC.finished ∧
    (srRun (srInit (([] : List Nat).map DrvEvent.row ++ [DrvEvent.fin]) : SRState Nat Nat)
        [SchedAct.pull, SchedAct.deliver, SchedAct.pull]).yields = [YieldItem.undef] ∧
    ([YieldItem.undef] : List (YieldItem Nat)) ≠ ([] : List Nat).map YieldItem.val := by
  exact ⟨rfl, rfl, by decide⟩

/-- C1 (amended): for a driver trace of rows followed by done, under
every interleaving of pulls and deliveries the adapter never raises, and
when the generator terminates its yield sequence is exactly the rows in
order — possibly followed by one trailing `undefined` sentinel (produced
when `done` resolves a pending pull); no row is dropped or duplicated. -/
theorem streamRows_yields_amended (rows : List R) (acts : List SchedAct) :
    (∀ e : E,
      (srRun (srInit (rows.map DrvEvent.row ++ [DrvEvent.fin])) acts).pc ≠
        GenPC.failed e) ∧
    ((srRun (srInit (rows.map DrvEvent.row ++ [DrvEvent.fin]) : SRState R E) acts).pc =
        GenPC.finished →
      (srRun (srInit (rows.map DrvEvent.row ++ [DrvEvent.fin]) : SRState R E) acts).yields =
          rows.map YieldItem.val ∨
        (srRun (srInit (rows.map DrvEvent.row ++ [DrvEvent.fin]) : SRState R E) acts).yields =
          rows.map YieldItem.val ++ [YieldItem.undef]) := by
  obtain ⟨herr, hph⟩ := C1Inv_run rows acts _ (C1Inv_init rows (E := E))
  constructor
  · intro e hpc
    rcases hph with ⟨k, _, _, _, _, hpc'⟩ | ⟨_, _, _, hpc'⟩ | ⟨_, _, _, _, hpc'⟩
    · rcases hpc' with h | h | ⟨h, _⟩ <;> rw [hpc] at h <;> exact absurd h (by simp)
    · rcases hpc' with h | h | ⟨h, _⟩ <;> rw [hpc] at h <;> exact absurd h (by simp)
    · rcases hpc' with h | h <;> rw [hpc] at h <;> exact absurd h (by simp)
  · intro hfin
    rcases hph with ⟨k, hk, hpend, hdone, hyq, hpc'⟩ | ⟨hpend, hdone, hyq, hpc'⟩ |
      ⟨hpend, hdone, hq, hy, hpc'⟩
    · rcases hpc' with h | h | ⟨h, _⟩ <;> rw [hfin] at h <;> exact absurd h (by simp)
    · rcases hpc' with h | h | ⟨h, hq⟩
      · rw [hfin] at h; exact absurd h (by simp)
      · rw [hfin] at h; exact absurd h (by simp)
      · left
        have hy2 := hyq
        rw [hq, List.map_nil, List.append_nil] at hy2
        exact hy2
    · right
      exact hy

/-- C1 witness: two rows delivered then pulled, then done: the yields are
exactly the two rows. -/
theorem streamRows_yields_witness :
    (srRun (srInit (([1, 2] : List Nat).map DrvEvent.row ++ [DrvEvent.fin]) : SRState Nat Nat)
        [SchedAct.deliver, SchedAct.deliver, SchedAct.pull, SchedAct.pull,
         SchedAct.deliver, SchedAct.pull]).yields =
        ([1, 2] : List Nat).map YieldItem.val ∨
      (srRun (srInit (([1, 2] : List Nat).map DrvEvent.row ++ [DrvEvent.fin]) : SRState Nat Nat)
        [SchedAct.deliver, SchedAct.deliver, SchedAct.pull, SchedAct.pull,
         SchedAct.deliver, SchedAct.pull]).yields =
        ([1, 2] : List Nat).map YieldItem.val ++ [YieldItem.undef] :=
  (streamRows_yields_amended [1, 2]
    [SchedAct.deliver, SchedAct.deliver, SchedAct.pull, SchedAct.pull,
     SchedAct.deliver, SchedAct.pull]).2 (by decide)

/-- C6: for a driver trace of rows with an error event (and no done),
under every interleaving the generator never terminates normally, any
raised error is the driver's error, every yielded value is a pre-error
row (in order, none after the error, even with rows still queued), and
once the error is stored a consumer not yet failed fails on its next
pull with that same error. -/
theorem streamRows_error_propagation (rows1 rows2 : List R) (e : E)
    (acts : List SchedAct) :
    (srRun (srInit (rows1.map DrvEvent.row ++ (DrvEvent.fail e :: rows2.map DrvEvent.row)))
        acts).pc ≠ GenPC.finished ∧
    (∀ e', (srRun (srInit (rows1.map DrvEvent.row ++
        (DrvEvent.fail e :: rows2.map DrvEvent.row))) acts).pc = GenPC.failed e' →
        e' = e) ∧
    (∃ t, (srRun (srInit (rows1.map DrvEvent.row ++
        (DrvEvent.fail e :: rows2.map DrvEvent.row))) acts).yields ++ t =
        rows1.map YieldItem.val) ∧
    ((srRun (srInit (rows1.map DrvEvent.row ++
        (DrvEvent.fail e :: rows2.map DrvEvent.row))) acts).errVar = some e →
      (srRun (srInit (rows1.map DrvEvent.row ++
        (DrvEvent.fail e :: rows2.map DrvEvent.row))) acts).pc ≠ GenPC.failed e →
      (doPull (srRun (srInit (rows1.map DrvEvent.row ++
        (DrvEvent.fail e :: rows2.map DrvEvent.row))) acts)).pc = GenPC.failed e) := by
  have hinv := C6Inv_run rows1 rows2 e acts _ (C6Inv_init rows1 rows2 e)
  rcases hinv with ⟨k, hk, hpend, herr, hdone, hyq, hpc⟩ |
    ⟨j, hj, hpend, herr, hdone, hy, hpc⟩
  · refine ⟨?_, ?_, ?_, ?_⟩
    · intro hfin
      rcases hpc with h | h | ⟨h, _⟩ <;> rw [hfin] at h <;> exact absurd h (by simp)
    · intro e' hfail
      rcases hpc with h | h | ⟨h, _⟩ <;> rw [hfail] at h <;> exact absurd h (by simp)
    · refine ⟨(srRun (srInit (rows1.map DrvEvent.row ++
          (DrvEvent.fail e :: rows2.map DrvEvent.row))) acts).queue.map YieldItem.val ++
          (rows1.drop k).map YieldItem.val, ?_⟩
      rw [← List.append_assoc, hyq, ← List.map_append, List.take_append_drop]
    · intro hsome
      rw [herr] at hsome
      exact absurd hsome (by simp)
  · refine ⟨?_, ?_, hy, ?_⟩
    · intro hfin
      rcases hpc with h | h | h <;> rw [hfin] at h <;> exact absurd h (by simp)
    · intro e' hfail
      rcases hpc with h | h | h
      · rw [hfail] at h
        exact (GenPC.failed.injEq _ _ ▸ h : e' = e)
      · rw [hfail] at h; exact absurd h (by simp)
      · rw [hfail] at h; exact absurd h (by simp)
    · intro _ hnofail
      rcases hpc with h | h | h
      · exact absurd h hnofail
      · simp only [doPull, h, runLoop, herr]
      · simp only [doPull, h, hdone, runLoop, herr]

/-- C6 witness: a row then the error, both delivered before the next
pull: that pull raises the stored error. -/
theorem streamRows_error_witness :
    (doPull (srRun (srInit (([1] : List Nat).map DrvEvent.row ++
        (DrvEvent.fail (9 : Nat) :: ([] : List Nat).map DrvEvent.row)))
        [SchedAct.deliver, SchedAct.deliver])).pc = GenPC.failed 9 :=
  (streamRows_error_propagation [1] [] 9 [SchedAct.deliver, SchedAct.deliver]).2.2.2
    (by decide) (by decide)


/-- C2 failing run: from a fresh state, two concurrent `getPool` calls
with the same configuration each start a `ConnectionPool` initialization
(the promise guard compares against a not-yet-stored hash), and the two
calls return two different pools. -/
theorem getPool_concurrent_double_init :
    (sysRun ⟨mgrFresh, [CallSt.idle 7, CallSt.idle 7]⟩ [0, 1, 0, 1]).mgr.initCount = 2 ∧
    (sysRun ⟨mgrFresh, [CallSt.idle 7, CallSt.idle 7]⟩ [0, 1, 0, 1]).calls =
      [CallSt.finishedWith 0, CallSt.finishedWith 1] ∧
    ¬((2 : Nat) ≤ 1) := by
  exact ⟨rfl, rfl, by decide⟩

/-- C4: with a connected stored pool whose hash matches, `getPool`
returns that pool and changes nothing: no close, no creation, no new
trace events. -/
theorem getPool_same_config_reuses_pool (H : Type) [DecidableEq H]
    (m : MgrState H) (h : H) (p : Nat) (hgp : m.globalPool = some p)
    (hch : m.currentConfigHash = some h) (hconn : p ∈ m.connectedIds) :
    sysRun ⟨m, [CallSt.idle h]⟩ [0] = ⟨m, [CallSt.finishedWith p]⟩ := by
  simp only [sysRun, List.foldl, sysStep, List.get?, callStep, checkOne, hgp, hch, hconn,
    and_true, if_pos, List.set]


/-- C4 witness: a concrete state with a connected matching pool. -/
theorem getPool_same_config_witness :
    sysRun ⟨⟨some 5, [5], some 3, none, [], 10, 20, 0, []⟩, [CallSt.idle 3]⟩ [0] =
      ⟨⟨some 5, [5], some 3, none, [], 10, 20, 0, []⟩, [CallSt.finishedWith 5]⟩ :=
  getPool_same_config_reuses_pool Nat _ 3 5 rfl rfl (by decide)

/-- C3: a `getPool` call whose configuration hash differs from the
stored one closes the stored pool (when one exists) before creating and
connecting the new pool, and afterwards the stored pool is the new pool
and the stored hash is the new configuration's hash. -/
theorem getPool_config_change_recreates (H : Type) [DecidableEq H]
    (m : MgrState H) (h : H) (hne : m.currentConfigHash ≠ some h) :
    (∀ p, m.globalPool = some p →
      sysRun ⟨m, [CallSt.idle h]⟩ [0, 0, 0] =
        ⟨{ globalPool := some m.nextPoolId,
           connectedIds := m.connectedIds ++ [m.nextPoolId],
           currentConfigHash := some h,
           poolInitializationPromise := none,
           resolved := m.resolved ++ [(m.nextPromiseId, m.nextPoolId)],
           nextPoolId := m.nextPoolId + 1,
           nextPromiseId := m.nextPromiseId + 1,
           initCount := m.initCount + 1,
           trace := m.trace ++ [PoolEvt.closed p, PoolEvt.created m.nextPoolId,
                                PoolEvt.connectedEvt m.nextPoolId] },
         [CallSt.finishedWith m.nextPoolId]⟩) ∧
    (m.globalPool = none →
      sysRun ⟨m, [CallSt.idle h]⟩ [0, 0] =
        ⟨{ globalPool := some m.nextPoolId,
           connectedIds := m.connectedIds ++ [m.nextPoolId],
           currentConfigHash := some h,
           poolInitializationPromise := none,
           resolved := m.resolved ++ [(m.nextPromiseId, m.nextPoolId)],
           nextPoolId := m.nextPoolId + 1,
           nextPromiseId := m.nextPromiseId + 1,
           initCount := m.initCount + 1,
           trace := m.trace ++ [PoolEvt.created m.nextPoolId,
                                PoolEvt.connectedEvt m.nextPoolId] },
         [CallSt.finishedWith m.nextPoolId]⟩) := by
  constructor
  · intro p hgp
    have hone : checkOne m h = none := by
      unfold checkOne
      rw [hgp]
      cases hch : m.currentConfigHash with
      | none => rfl
      | some h0 =>
        have : ¬(h0 = h ∧ p ∈ m.connectedIds) := by
          rintro ⟨rfl, _⟩
          exact hne hch
        simp [this]
    have htwo : checkTwo m h = none := by
      unfold checkTwo
      cases hpr : m.poolInitializationPromise with
      | none => rfl
      | some pr =>
        cases hch : m.currentConfigHash with
        | none => rfl
        | some h0 =>
          have : ¬h0 = h := by rintro rfl; exact hne hch
          simp [this]
    cases hch : m.currentConfigHash with
    | none =>
      simp only [sysRun, List.foldl, sysStep, List.get?, callStep, hone, htwo, hgp, hch,
        List.set, startConnect, List.append_assoc, List.cons_append, List.nil_append,
        List.singleton_append]
    | some h0 =>
      have hh0 : ¬(h0 = h) := by rintro rfl; exact hne hch
      simp only [sysRun, List.foldl, sysStep, List.get?, callStep, hone, htwo, hgp, hch,
        hh0, if_false, List.set, startConnect, List.append_assoc, List.cons_append,
        List.nil_append, List.singleton_append]
  · intro hgp
    have hone : checkOne m h = none := by
      unfold checkOne
      rw [hgp]
    have htwo : checkTwo m h = none := by
      unfold checkTwo
      cases hpr : m.poolInitializationPromise with
      | none => rfl
      | some pr =>
        cases hch : m.currentConfigHash with
        | none => rfl
        | some h0 =>
          have : ¬h0 = h := by rintro rfl; exact hne hch
          simp [this]
    simp only [sysRun, List.foldl, sysStep, List.get?, callStep, hone, htwo, hgp,
      List.set, startConnect, List.append_assoc, List.cons_append, List.nil_append,
      List.singleton_append]

/-- C3 witness: a concrete state whose stored hash differs. -/
theorem getPool_config_change_witness :
    sysRun ⟨⟨some 5, [5], some 3, none, [], 10, 20, 0, []⟩, [CallSt.idle 4]⟩ [0, 0, 0] =
      ⟨⟨some 10, [5, 10], some 4, none, [(20, 10)], 11, 21, 1,
          [PoolEvt.closed 5, PoolEvt.created 10, PoolEvt.connectedEvt 10]⟩,
        [CallSt.finishedWith 10]⟩ :=
  (getPool_config_change_recreates Nat ⟨some 5, [5], some 3, none, [], 10, 20, 0, []⟩ 4
    (by decide)).1 5 rfl

end Mssql
